import Mathlib

/-!
Shallow embedding of `crates/bevy_ui/src/widget/progress_bar.rs`.

`f32` values are modelled by the inductive `F32`: finite values are exact
rationals (all operations the claims exercise — clamp, comparison, and the
additions at the claimed inputs — are exact in IEEE binary32), and the
non-finite values NaN, +inf and -inf are explicit constructors.  IEEE
comparison semantics (every comparison with NaN is false) and Rust's
`f32::clamp` (which propagates NaN) are translated directly.
-/

namespace ProgressBar

/-- Model of an `f32` value: an exact finite rational, an infinity, or NaN. -/
inductive F32 where
  | finite (q : ℚ)
  | posInf
  | negInf
  | nan
deriving DecidableEq

namespace F32

/-- IEEE `<` on `f32`: any comparison involving NaN is false. -/
def blt : F32 → F32 → Bool
  | nan, _ => false
  | _, nan => false
  | negInf, negInf => false
  | negInf, _ => true
  | _, negInf => false
  | posInf, _ => false
  | finite _, posInf => true
  | finite a, finite b => decide (a < b)

/-- IEEE `<=` on `f32`: any comparison involving NaN is false. -/
def ble : F32 → F32 → Bool
  | nan, _ => false
  | _, nan => false
  | negInf, _ => true
  | _, negInf => false
  | _, posInf => true
  | posInf, _ => false
  | finite a, finite b => decide (a ≤ b)

/-- `f32` addition; finite arithmetic modelled exactly. -/
def add : F32 → F32 → F32
  | nan, _ => nan
  | _, nan => nan
  | posInf, negInf => nan
  | negInf, posInf => nan
  | posInf, _ => posInf
  | _, posInf => posInf
  | negInf, _ => negInf
  | _, negInf => negInf
  | finite a, finite b => finite (a + b)

/-- `f32` negation. -/
def neg : F32 → F32
  | nan => nan
  | posInf => negInf
  | negInf => posInf
  | finite a => finite (-a)

/-- `f32` subtraction (`a - b`). -/
def sub (a b : F32) : F32 := add a (neg b)

/-- `f32::abs`. -/
def abs : F32 → F32
  | nan => nan
  | posInf => posInf
  | negInf => posInf
  | finite a => finite |a|

/-- `f32::EPSILON` = 2^-23 = 1/8388608, exactly representable. -/
def EPSILON : F32 := finite (1 / 8388608)

/-- Rust `f32::clamp(self, min, max)`:
`if self < min { min } else if self > max { max } else { self }`.
NaN input falls through both comparisons and is returned unchanged. -/
def clamp (self lo hi : F32) : F32 :=
  if self.blt lo then lo else if hi.blt self then hi else self

end F32

/-- `pub struct Progress(f32);` — the field `.0` is named `val`. -/
structure Progress where
  val : F32
deriving DecidableEq

namespace Progress

/-- `fn clamp_value(value: f32) -> f32 { value.clamp(0.0, 100.0) }` -/
def clamp_value (value : F32) : F32 :=
  F32.clamp value (F32.finite 0) (F32.finite 100)

/-- `pub fn new(value: f32) -> Self { Progress(Self::clamp_value(value)) }` -/
def new (value : F32) : Progress := ⟨clamp_value value⟩

/-- `pub fn empty() -> Self { Self::new(0.0) }` -/
def empty : Progress := new (F32.finite 0)

/-- `pub fn set(&mut self, value: f32) { self.0 = Self::clamp_value(value) }`
(functional version: the result is the mutated receiver). -/
def set (_self : Progress) (value : F32) : Progress := ⟨clamp_value value⟩

/-- The `Deref` impl: `fn deref(&self) -> &f32 { &self.0 }`. -/
def deref (self : Progress) : F32 := self.val

/-- `pub fn is_done(&self) -> bool { (self.0 - 100.0).abs() < f32::EPSILON }` -/
def is_done (self : Progress) : Bool :=
  F32.blt (F32.abs (F32.sub self.val (F32.finite 100))) F32.EPSILON

/-- `impl AddAssign<f32> for Progress { fn add_assign(&mut self, rhs: f32) { self.set(**self + rhs) } }` -/
def addAssign (self : Progress) (rhs : F32) : Progress :=
  self.set (F32.add self.deref rhs)

end Progress

/-- `pub enum ProgressBarAnimation` with its four variants. -/
inductive ProgressBarAnimation where
  | ResizeWidth
  | ResizeHeight
  | ResizeBothDimensions
  | Custom
deriving DecidableEq

/-- Modelled from the spec: the external `Val` length type whose `Percent`
variant the updater writes (`Val::Percent(**progress)`); the other
variants stand for the remaining length units the core never writes. -/
inductive Val where
  | Undefined
  | Auto
  | Px (value : F32)
  | Percent (value : F32)
deriving DecidableEq

/-- Modelled from the spec: the external `Size` with `width`/`height` fields. -/
structure Size where
  width : Val
  height : Val
deriving DecidableEq

/-- Modelled from the spec: the external `Style` component — its `size`
field plus an opaque stand-in `other` for all remaining style fields,
which the core never touches. -/
structure Style (O : Type) where
  size : Size
  other : O
deriving DecidableEq

/-- The loop body of `progress_bar_animation_system` for one
`(&Progress, &ProgressBarAnimation, &mut Style)` tuple:
match on the mode to pick `(resize_width, resize_height)`, then
conditionally overwrite `style.size.width` / `style.size.height`
with `Val::Percent(**progress)`. -/
def updateTuple {O : Type} (progress : Progress) (dimension : ProgressBarAnimation)
    (style : Style O) : Style O :=
  let rwrh : Bool × Bool :=
    match dimension with
    | ProgressBarAnimation.ResizeWidth => (true, false)
    | ProgressBarAnimation.ResizeHeight => (false, true)
    | ProgressBarAnimation.ResizeBothDimensions => (true, true)
    | ProgressBarAnimation.Custom => (false, false)
  let style1 :=
    if rwrh.1 then
      { style with size := { style.size with width := Val.Percent progress.deref } }
    else style
  if rwrh.2 then
    { style1 with size := { style1.size with height := Val.Percent progress.deref } }
  else style1

/-- `pub fn progress_bar_animation_system(query)`: the query hands the system
the externally-filtered list of changed tuples; the system applies the
per-tuple update to each entry in place. -/
def progress_bar_animation_system {O : Type}
    (query : List (Progress × ProgressBarAnimation × Style O)) :
    List (Progress × ProgressBarAnimation × Style O) :=
  query.map fun t => (t.1, t.2.1, updateTuple t.1 t.2.1 t.2.2)

/-- The spec's invariant `0.0 <= value <= 100.0`, read with IEEE comparisons
(so it fails for NaN and infinities). -/
def inRange (v : F32) : Prop :=
  F32.ble (F32.finite 0) v = true ∧ F32.ble v (F32.finite 100) = true

/-- A rational is a finite binary32 value: `m * 2^e` with `|m| < 2^24`
(this superset of the finite `f32` values also covers subnormals). -/
def isFiniteF32Val (q : ℚ) : Prop :=
  ∃ m e : ℤ, |m| < 2 ^ 24 ∧ q = (m : ℚ) * (2 : ℚ) ^ e

/-! ## Helper lemmas -/

lemma clamp_value_finite (q : ℚ) :
    Progress.clamp_value (F32.finite q) =
      F32.finite (if q < 0 then 0 else if 100 < q then 100 else q) := by
  simp only [Progress.clamp_value, F32.clamp, F32.blt]
  by_cases h1 : q < 0
  · simp [h1]
  · by_cases h2 : (100 : ℚ) < q <;> simp [h1, h2]

lemma is_done_finite (q : ℚ) :
    (Progress.mk (F32.finite q)).is_done = decide (|q - 100| < 1 / 8388608) := by
  simp only [Progress.is_done, F32.sub, F32.neg, F32.add, F32.abs, F32.blt, F32.EPSILON,
    ← sub_eq_add_neg]

lemma clamp_value_nonneg_le (q : ℚ) (h0 : ¬ q < 0) (h1 : ¬ (100 : ℚ) < q) :
    Progress.clamp_value (F32.finite q) = F32.finite q := by
  rw [clamp_value_finite, if_neg h0, if_neg h1]

lemma addAssign_zero_eq (q : ℚ) :
    (Progress.new (F32.finite q)).addAssign (F32.finite 0) = Progress.new (F32.finite q) := by
  show Progress.mk
      (Progress.clamp_value (F32.add (Progress.clamp_value (F32.finite q)) (F32.finite 0))) =
    Progress.mk (Progress.clamp_value (F32.finite q))
  rw [clamp_value_finite q]
  by_cases h1 : q < 0
  · rw [if_pos h1]
    norm_num [F32.add, clamp_value_finite]
  · by_cases h2 : (100 : ℚ) < q
    · rw [if_neg h1, if_pos h2]
      norm_num [F32.add, clamp_value_finite]
    · rw [if_neg h1, if_neg h2]
      simp only [F32.add, add_zero]
      rw [clamp_value_nonneg_le q h1 h2]

lemma clamp_value_inRange (v : F32) (hv : v ≠ F32.nan) :
    inRange (Progress.clamp_value v) := by
  cases v with
  | nan => exact absurd rfl hv
  | posInf =>
      show inRange (F32.finite 100)
      norm_num [inRange, F32.ble]
  | negInf =>
      show inRange (F32.finite 0)
      norm_num [inRange, F32.ble]
  | finite q =>
      rw [clamp_value_finite]
      by_cases h1 : q < 0
      · rw [if_pos h1]; norm_num [inRange, F32.ble]
      · by_cases h2 : (100 : ℚ) < q
        · rw [if_neg h1, if_pos h2]; norm_num [inRange, F32.ble]
        · rw [if_neg h1, if_neg h2]
          constructor <;> simp [F32.ble] <;> linarith

/-! ## Claims -/

/-- C1: for every finite `v`, `Progress::new(v)` stores exactly
`clamp(v, 0.0, 100.0)` — the stored value is `v` when `0 <= v <= 100`,
`0` when `v < 0`, `100` when `v > 100` — and `Deref` returns the stored
value. -/
theorem new_stores_clamped (q : ℚ) :
    ((0 ≤ q ∧ q ≤ 100) → (Progress.new (F32.finite q)).deref = F32.finite q) ∧
    (q < 0 → (Progress.new (F32.finite q)).deref = F32.finite 0) ∧
    (100 < q → (Progress.new (F32.finite q)).deref = F32.finite 100) ∧
    (∀ p : Progress, p.deref = p.val) := by
  refine ⟨fun h => ?_, fun h => ?_, fun h => ?_, fun p => rfl⟩ <;>
    simp only [Progress.new, Progress.deref, clamp_value_finite]
  · rw [if_neg (by linarith), if_neg (by linarith)]
  · rw [if_pos h]
  · rw [if_neg (by linarith), if_pos h]

theorem new_stores_clamped_witness :
    (Progress.new (F32.finite 25)).deref = F32.finite 25 ∧
    (Progress.new (F32.finite (-3))).deref = F32.finite 0 ∧
    (Progress.new (F32.finite 101)).deref = F32.finite 100 :=
  ⟨(new_stores_clamped 25).1 (by norm_num),
   (new_stores_clamped (-3)).2.1 (by norm_num),
   (new_stores_clamped 101).2.2.1 (by norm_num)⟩

/-- C3: for all finite `v1, v2`, `Progress::new(v1).set(v2)` has the same
stored value as `Progress::new(v2)`. -/
theorem set_agrees_with_new (q1 q2 : ℚ) :
    (Progress.new (F32.finite q1)).set (F32.finite q2) = Progress.new (F32.finite q2) := rfl

/-- C4: the additive update reads the current value, adds the delta,
re-clamps and stores; `Progress::new(90.0) += 50.0` yields stored value
`100.0` with `is_done()` true, and `Progress::new(10.0) += -50.0` yields
stored value `0.0`. -/
theorem addAssign_saturates :
    ((Progress.new (F32.finite 90)).addAssign (F32.finite 50)).deref = F32.finite 100 ∧
    ((Progress.new (F32.finite 90)).addAssign (F32.finite 50)).is_done = true ∧
    ((Progress.new (F32.finite 10)).addAssign (F32.finite (-50))).deref = F32.finite 0 ∧
    ∀ (p : Progress) (d : F32), p.addAssign d = p.set (F32.add p.deref d) := by
  refine ⟨?_, ?_, ?_, fun p d => rfl⟩ <;>
    norm_num [Progress.addAssign, Progress.set, Progress.deref, Progress.new,
      clamp_value_finite, F32.add, is_done_finite]

/-- C5: for every finite `v`, applying `+= 0.0` any number of times to
`Progress::new(v)` leaves the stored value unchanged. -/
theorem addAssign_zero_noop (q : ℚ) (n : ℕ) :
    (fun p : Progress => p.addAssign (F32.finite 0))^[n] (Progress.new (F32.finite q)) =
      Progress.new (F32.finite q) := by
  induction n with
  | zero => rfl
  | succ n ih => rw [Function.iterate_succ_apply', ih, addAssign_zero_eq]

/-- C6: `is_done()` is true iff the stored value is within `f32::EPSILON`
(= 1/8388608) of 100.0, not exact equality; it is true for stored value
`100.0` and for `100.0 - EPSILON/2`, and false for `99.0`. -/
theorem is_done_within_epsilon :
    (∀ q : ℚ, (Progress.mk (F32.finite q)).is_done = true ↔ |q - 100| < 1 / 8388608) ∧
    F32.EPSILON = F32.finite (1 / 8388608) ∧
    (Progress.mk (F32.finite 100)).is_done = true ∧
    (Progress.mk (F32.finite (100 - 1 / 16777216))).is_done = true ∧
    (Progress.mk (F32.finite 99)).is_done = false := by
  refine ⟨fun q => ?_, rfl, ?_, ?_, ?_⟩ <;>
    simp only [is_done_finite, decide_eq_true_eq, decide_eq_false_iff_not, abs_lt] <;>
    norm_num

/-- C2 counterexample: `Progress::new(f32::NAN)` stores NaN (Rust's
`f32::clamp` propagates NaN: NaN is neither `< 0.0` nor `> 100.0`), so
both IEEE comparisons `0.0 <= value` and `value <= 100.0` are false on
the stored value — the invariant does not hold for NaN input. -/
theorem nan_input_breaks_invariant :
    (Progress.new F32.nan).val = F32.nan ∧
    F32.ble (F32.finite 0) (Progress.new F32.nan).val = false ∧
    F32.ble (Progress.new F32.nan).val (F32.finite 100) = false :=
  ⟨rfl, rfl, rfl⟩

/-- C2 (amended): for every non-NaN `f32` input (finite or infinite) and
every non-NaN delta, each of `new`, `empty`, `set`, and `+=` (from a state
satisfying the invariant) stores a value with `0.0 <= value <= 100.0`;
out-of-range inputs are clamped, never rejected.  (NaN input is the sole
exception: Rust's `clamp` propagates it.) -/
theorem invariant_holds_for_non_nan (v d : F32) (p : Progress)
    (hv : v ≠ F32.nan) (hd : d ≠ F32.nan) (hp : inRange p.val) :
    inRange (Progress.new v).val ∧ inRange Progress.empty.val ∧
    inRange (p.set v).val ∧ inRange (p.addAssign d).val := by
  obtain ⟨r, hr⟩ : ∃ r : ℚ, p.val = F32.finite r := by
    cases hval : p.val with
    | finite r => exact ⟨r, rfl⟩
    | nan =>
        rw [hval] at hp
        exact absurd hp.1 (by simp [F32.ble])
    | posInf =>
        rw [hval] at hp
        exact absurd hp.2 (by simp [F32.ble])
    | negInf =>
        rw [hval] at hp
        exact absurd hp.1 (by simp [F32.ble])
  refine ⟨clamp_value_inRange v hv, ?_, clamp_value_inRange v hv, ?_⟩
  · exact clamp_value_inRange (F32.finite 0) (by simp)
  · show inRange (Progress.clamp_value (F32.add p.deref d))
    refine clamp_value_inRange _ ?_
    rw [Progress.deref, hr]
    cases d with
    | nan => exact absurd rfl hd
    | posInf => simp [F32.add]
    | negInf => simp [F32.add]
    | finite s => simp [F32.add]

theorem invariant_holds_for_non_nan_witness :
    inRange (Progress.new (F32.finite 150)).val ∧
    inRange ((Progress.new (F32.finite 3)).addAssign (F32.finite (-7))).val := by
  have h := invariant_holds_for_non_nan (F32.finite 150) (F32.finite (-7))
    (Progress.new (F32.finite 3)) (by simp) (by simp)
    (clamp_value_inRange (F32.finite 3) (by simp))
  exact ⟨h.1, h.2.2.2⟩

/-- C7: per tuple, `ResizeWidth` overwrites only the width with
`Percent(p)`, `ResizeHeight` only the height, `ResizeBothDimensions`
both, where `p` is the Progress percentage read through `Deref`. -/
theorem animation_resizes_selected {O : Type} (p : Progress) (s : Style O) :
    updateTuple p ProgressBarAnimation.ResizeWidth s =
      { s with size := { s.size with width := Val.Percent p.deref } } ∧
    updateTuple p ProgressBarAnimation.ResizeHeight s =
      { s with size := { s.size with height := Val.Percent p.deref } } ∧
    updateTuple p ProgressBarAnimation.ResizeBothDimensions s =
      { s with size := { width := Val.Percent p.deref, height := Val.Percent p.deref } } :=
  ⟨rfl, rfl, rfl⟩

/-- C8: under `Custom` the Style is left entirely unchanged; in every mode
only the width/height size fields of the same tuple's Style can change
(`other` is untouched); and the system is entity-local: output entry `i`
is a function of input entry `i` alone, with no entries added or
removed. -/
theorem custom_noop_and_entity_local {O : Type} :
    (∀ (p : Progress) (s : Style O), updateTuple p ProgressBarAnimation.Custom s = s) ∧
    (∀ (p : Progress) (d : ProgressBarAnimation) (s : Style O),
      (updateTuple p d s).other = s.other) ∧
    (∀ query : List (Progress × ProgressBarAnimation × Style O),
      (progress_bar_animation_system query).length = query.length) ∧
    (∀ (query : List (Progress × ProgressBarAnimation × Style O)) (i : ℕ)
      (h : i < query.length) (h2 : i < (progress_bar_animation_system query).length),
      (progress_bar_animation_system query).get ⟨i, h2⟩ =
        ((query.get ⟨i, h⟩).1, (query.get ⟨i, h⟩).2.1,
          updateTuple (query.get ⟨i, h⟩).1 (query.get ⟨i, h⟩).2.1 (query.get ⟨i, h⟩).2.2)) := by
  refine ⟨fun p s => rfl, fun p d s => ?_, fun query => by
    simp [progress_bar_animation_system], fun query i h h2 => ?_⟩
  · cases d <;> rfl
  · simp [progress_bar_animation_system]

theorem custom_noop_and_entity_local_witness :
    updateTuple (Progress.new (F32.finite 42)) ProgressBarAnimation.Custom
      (⟨⟨Val.Percent (F32.finite 7), Val.Auto⟩, (0 : ℕ)⟩ : Style ℕ) =
      ⟨⟨Val.Percent (F32.finite 7), Val.Auto⟩, (0 : ℕ)⟩ ∧
    (progress_bar_animation_system
        [(Progress.empty, ProgressBarAnimation.ResizeWidth,
          (⟨⟨Val.Auto, Val.Auto⟩, (5 : ℕ)⟩ : Style ℕ))]).get ⟨0, by decide⟩ =
      (Progress.empty, ProgressBarAnimation.ResizeWidth,
        updateTuple Progress.empty ProgressBarAnimation.ResizeWidth
          (⟨⟨Val.Auto, Val.Auto⟩, (5 : ℕ)⟩ : Style ℕ)) := by
  refine ⟨(custom_noop_and_entity_local (O := ℕ)).1 _ _, ?_⟩
  exact (custom_noop_and_entity_local (O := ℕ)).2.2.2 _ 0 (by decide) (by decide)

/-- C9: the per-tuple update is idempotent — applying it twice with the
same Progress and mode gives the same Style as applying it once. -/
theorem animation_idempotent {O : Type} (p : Progress) (d : ProgressBarAnimation)
    (s : Style O) :
    updateTuple p d (updateTuple p d s) = updateTuple p d s := by
  cases d <;> rfl

/-- C10: over values actually representable in binary32 and lying in
`[0, 100]`, `is_done()` is exact equality with 100: the tolerance
`f32::EPSILON = 2^-23` is strictly smaller than the distance `2^-17`
from 100.0 to its nearest binary32 neighbour below. -/
theorem is_done_exact_on_f32 (q : ℚ) (hrep : isFiniteF32Val q)
    (h0 : 0 ≤ q) (h1 : q ≤ 100) :
    ((Progress.mk (F32.finite q)).is_done = true) ↔ q = 100 := by
  rw [is_done_finite, decide_eq_true_eq]
  constructor
  · intro h
    by_contra hne
    have hlt : q < 100 := lt_of_le_of_ne h1 hne
    rw [abs_of_nonpos (by linarith), neg_sub] at h
    obtain ⟨m, e, hm, hq⟩ := hrep
    rcases le_or_lt (-17 : ℤ) e with he | he
    · -- q is an integer multiple of 2^-17, so q ≤ 100 - 2^-17
      have hnn : (0 : ℤ) ≤ e + 17 := by linarith
      have hke : ((m * 2 ^ (e + 17).toNat : ℤ) : ℚ) = q * 131072 := by
        push_cast
        rw [hq, mul_assoc, ← zpow_natCast (2 : ℚ) (e + 17).toNat,
          Int.toNat_of_nonneg hnn,
          show (131072 : ℚ) = (2 : ℚ) ^ (17 : ℤ) by norm_num,
          ← zpow_add₀ (by norm_num : (2 : ℚ) ≠ 0) e 17]
      have hklt : (m * 2 ^ (e + 17).toNat : ℤ) < 13107200 := by
        have hc : ((m * 2 ^ (e + 17).toNat : ℤ) : ℚ) < 13107200 := by
          rw [hke]; linarith
        exact_mod_cast hc
      have hq2 : q * 131072 ≤ 13107199 := by
        rw [← hke]
        exact_mod_cast (by omega : (m * 2 ^ (e + 17).toNat : ℤ) ≤ 13107199)
      linarith
    · -- tiny exponent: q < 64, far below the tolerance window
      have habs : |q| = |(m : ℚ)| * (2 : ℚ) ^ e := by
        rw [hq, abs_mul, abs_of_pos (zpow_pos (by norm_num : (0 : ℚ) < 2) e)]
      have hmq : |(m : ℚ)| < 16777216 := by
        have hm2 : |m| < 16777216 := by norm_num at hm; exact hm
        exact_mod_cast hm2
      have hzle : (2 : ℚ) ^ e ≤ (2 : ℚ) ^ (-18 : ℤ) :=
        zpow_le_zpow_right₀ (by norm_num) (by omega)
      have hz18 : (2 : ℚ) ^ (-18 : ℤ) = 1 / 262144 := by
        rw [zpow_neg, show (18 : ℤ) = ((18 : ℕ) : ℤ) by norm_num, zpow_natCast]
        norm_num
      have hq64 : q < 64 := by
        calc q ≤ |q| := le_abs_self q
        _ = |(m : ℚ)| * (2 : ℚ) ^ e := habs
        _ < 16777216 * (2 : ℚ) ^ e :=
            mul_lt_mul_of_pos_right hmq (zpow_pos (by norm_num) e)
        _ ≤ 16777216 * (1 / 262144) := by
            rw [← hz18]
            exact mul_le_mul_of_nonneg_left hzle (by norm_num)
        _ = 64 := by norm_num
      linarith
  · intro h
    rw [h]
    norm_num

theorem is_done_exact_on_f32_witness :
    (Progress.mk (F32.finite 100)).is_done = true :=
  (is_done_exact_on_f32 100 ⟨100, 0, by norm_num, by norm_num⟩
    (by norm_num) (by norm_num)).mpr rfl

end ProgressBar
